import Mathlib

/-!
Shallow embedding of `src/cursor.rs` from the regex-cursor repository.

The `Cursor` trait has four operations: `chunk`, `utf8_aware`, `advance`,
`backtrack`.  Rust methods that mutate `&mut self` and return `bool` are
embedded as functions `state → Bool × state`.  Byte slices `&[u8]` are
`List Nat`, string slices `&str` are `String` and `as_bytes` is the UTF-8
encoding `strBytes`.
-/

namespace RegexCursor

/-- UTF-8 bytes of a string, as natural numbers; embeds Rust `str::as_bytes`. -/
def strBytes (s : String) : List Nat := s.toUTF8.data.toList.map (fun b => b.toNat)

/-- Embeds `impl Cursor for &[u8]` (cursor.rs lines 50-67): the state is just
the borrowed byte slice. -/
structure ByteSliceCursor where
  data : List Nat
deriving DecidableEq

/-- Rust: `fn chunk(&self) -> &[u8] { self }` -/
def ByteSliceCursor.chunk (c : ByteSliceCursor) : List Nat := c.data

/-- Rust: `fn utf8_aware(&self) -> bool { true }` -/
def ByteSliceCursor.utf8_aware (_ : ByteSliceCursor) : Bool := true

/-- Rust: `fn advance(&mut self) -> bool { false }` -/
def ByteSliceCursor.advance (c : ByteSliceCursor) : Bool × ByteSliceCursor := (false, c)

/-- Rust: `fn backtrack(&mut self) -> bool { false }` -/
def ByteSliceCursor.backtrack (c : ByteSliceCursor) : Bool × ByteSliceCursor := (false, c)

/-- Embeds `impl Cursor for &str` (cursor.rs lines 69-86). -/
structure StrSliceCursor where
  data : String
deriving DecidableEq

/-- Rust: `fn chunk(&self) -> &[u8] { self.as_bytes() }` -/
def StrSliceCursor.chunk (c : StrSliceCursor) : List Nat := strBytes c.data

/-- Rust: `fn utf8_aware(&self) -> bool { true }` -/
def StrSliceCursor.utf8_aware (_ : StrSliceCursor) : Bool := true

/-- Rust: `fn advance(&mut self) -> bool { false }` -/
def StrSliceCursor.advance (c : StrSliceCursor) : Bool × StrSliceCursor := (false, c)

/-- Rust: `fn backtrack(&mut self) -> bool { false }` -/
def StrSliceCursor.backtrack (c : StrSliceCursor) : Bool × StrSliceCursor := (false, c)

/-- The loop `for next in self.iter.by_ref() { if next.is_empty() { continue; }
... return true; }` shared by the forward-only cursors: scans the iterator's
remaining items, returning the first item that is not empty together with the
iterator state after pulling it (the items before it are consumed). -/
def seekChunks {α : Type} (emptyFn : α → Bool) : List α → Option α × List α
  | [] => (none, [])
  | c :: rest => if emptyFn c then seekChunks emptyFn rest else (some c, rest)

/-- Embeds `struct Bytes<'a, I>` (cursor.rs lines 88-91): a forward iterator of
byte chunks (modelled by the list of items it has yet to yield) plus the
current chunk. -/
structure Bytes where
  iter : List (List Nat)
  current : List Nat
deriving DecidableEq

/-- Rust: `fn chunk(&self) -> &[u8] { self.current }` -/
def Bytes.chunk (b : Bytes) : List Nat := b.current

/-- Embeds `Bytes::advance` (cursor.rs lines 98-107). -/
def Bytes.advance (b : Bytes) : Bool × Bytes :=
  match seekChunks (fun c => c.isEmpty) b.iter with
  | (some c, rest) => (true, ⟨rest, c⟩)
  | (none, rest) => (false, ⟨rest, b.current⟩)

/-- Rust: `fn backtrack(&mut self) -> bool { false }` (cursor.rs lines 109-111). -/
def Bytes.backtrack (b : Bytes) : Bool × Bytes := (false, b)

/-- Rust: `fn utf8_aware(&self) -> bool { false }` (cursor.rs lines 113-115). -/
def Bytes.utf8_aware (_ : Bytes) : Bool := false

/-- Embeds `struct Utf8Bytes<'a, I>` (cursor.rs lines 118-121): a forward
iterator of `&str` chunks plus the current chunk (a byte slice). -/
structure Utf8Bytes where
  iter : List String
  current : List Nat
deriving DecidableEq

/-- Rust: `fn chunk(&self) -> &[u8] { self.current }` -/
def Utf8Bytes.chunk (u : Utf8Bytes) : List Nat := u.current

/-- Embeds `Utf8Bytes::advance` (cursor.rs lines 128-137); stores `next.as_bytes()`. -/
def Utf8Bytes.advance (u : Utf8Bytes) : Bool × Utf8Bytes :=
  match seekChunks String.isEmpty u.iter with
  | (some c, rest) => (true, ⟨rest, strBytes c⟩)
  | (none, rest) => (false, ⟨rest, u.current⟩)

/-- Rust: `fn backtrack(&mut self) -> bool { false }` (cursor.rs lines 139-141). -/
def Utf8Bytes.backtrack (u : Utf8Bytes) : Bool × Utf8Bytes := (false, u)

/-- Rust: `fn utf8_aware(&self) -> bool { true }` (cursor.rs lines 143-145). -/
def Utf8Bytes.utf8_aware (_ : Utf8Bytes) : Bool := true

/-- Modelled from the spec: the external bidirectional chunk iterator
(`ropey::iter::Chunks`, not part of this repository's sources).  Per the spec's
glossary it is "a chunk producer supporting both forward and backward stepping,
with a single shared position": we model it as the full chunk sequence plus a
position `pos` lying between chunks, `0 ≤ pos ≤ chunks.length`. -/
structure Chunks where
  chunks : List String
  pos : Nat
deriving DecidableEq

/-- Forward step of the bidirectional iterator: yield the chunk after the
position (if any) and move past it. -/
def Chunks.next (it : Chunks) : Option String × Chunks :=
  match it.chunks[it.pos]? with
  | some c => (some c, ⟨it.chunks, it.pos + 1⟩)
  | none => (none, it)

/-- Backward step of the bidirectional iterator: yield the chunk before the
position (if any) and move before it. -/
def Chunks.prev : Chunks → Option String × Chunks
  | ⟨cs, 0⟩ => (none, ⟨cs, 0⟩)
  | ⟨cs, p + 1⟩ => (cs[p]?, ⟨cs, p⟩)

/-- The forward loop of `RopeyCursor::advance` (`for next in self.iter.by_ref()`),
expressed on the list of items the iterator has yet to yield (`chunks.drop pos`):
first chunk that is not empty, with the number of items pulled. -/
def seekList : List String → Option String × Nat
  | [] => (none, 0)
  | c :: rest =>
    if c.isEmpty then
      let r := seekList rest
      (r.1, r.2 + 1)
    else (some c, 1)

/-- Scan of `RopeyCursor::advance` applied to the iterator state. -/
def Chunks.seekFwd (it : Chunks) : Option String × Chunks :=
  let r := seekList (it.chunks.drop it.pos)
  (r.1, ⟨it.chunks, it.pos + r.2⟩)

/-- The backward loop of `RopeyCursor::backtrack`
(`while let Some(prev) = self.iter.prev()`), by recursion on the position. -/
def seekBwdGo (cs : List String) : Nat → Option String × Nat
  | 0 => (none, 0)
  | p + 1 =>
    match cs[p]? with
    | none => (none, p)
    | some c => if c.isEmpty then seekBwdGo cs p else (some c, p)

/-- Scan of `RopeyCursor::backtrack` applied to the iterator state. -/
def Chunks.seekBwd (it : Chunks) : Option String × Chunks :=
  let r := seekBwdGo it.chunks it.pos
  (r.1, ⟨it.chunks, r.2⟩)

/-- Embeds `enum Pos` (cursor.rs lines 148-152). -/
inductive Pos where
  | ChunkStart : Pos
  | ChunkEnd : Pos
deriving DecidableEq

/-- Embeds `struct RopeyCursor` (cursor.rs lines 154-159). -/
structure RopeyCursor where
  iter : Chunks
  current : List Nat
  pos : Pos
deriving DecidableEq

/-- Embeds `RopeyCursor::new` (cursor.rs lines 161-165):
`Self { current: iter.next().unwrap_or_default().as_bytes(), iter, pos: Pos::ChunkEnd }`. -/
def RopeyCursor.new (it : Chunks) : RopeyCursor :=
  let r := it.next
  ⟨r.2, strBytes (r.1.getD ""), Pos.ChunkEnd⟩

/-- Rust: `fn chunk(&self) -> &[u8] { self.current }` (cursor.rs lines 168-170). -/
def RopeyCursor.chunk (rc : RopeyCursor) : List Nat := rc.current

/-- Embeds `RopeyCursor::advance` (cursor.rs lines 172-188): when the marker is
`ChunkStart`, discard one forward step and set the marker to `ChunkEnd`; then
scan forward for a chunk that is not empty. -/
def RopeyCursor.advance (rc : RopeyCursor) : Bool × RopeyCursor :=
  let it1 :=
    match rc.pos with
    | Pos.ChunkStart => (rc.iter.next).2
    | Pos.ChunkEnd => rc.iter
  match it1.seekFwd with
  | (some c, it2) => (true, ⟨it2, strBytes c, Pos.ChunkEnd⟩)
  | (none, it2) => (false, ⟨it2, rc.current, Pos.ChunkEnd⟩)

/-- Embeds `RopeyCursor::backtrack` (cursor.rs lines 190-206): when the marker is
`ChunkEnd`, discard one backward step and set the marker to `ChunkStart`; then
scan backward for a chunk that is not empty. -/
def RopeyCursor.backtrack (rc : RopeyCursor) : Bool × RopeyCursor :=
  let it1 :=
    match rc.pos with
    | Pos.ChunkStart => rc.iter
    | Pos.ChunkEnd => (rc.iter.prev).2
  match it1.seekBwd with
  | (some c, it2) => (true, ⟨it2, strBytes c, Pos.ChunkStart⟩)
  | (none, it2) => (false, ⟨it2, rc.current, Pos.ChunkStart⟩)

/-- Rust: `fn utf8_aware(&self) -> bool { true }` (cursor.rs lines 208-210). -/
def RopeyCursor.utf8_aware (_ : RopeyCursor) : Bool := true

/-! ### Basic facts about `strBytes` and the scanning loops -/

/-- Unfolding of `strBytes` to the character-by-character UTF-8 encoding. -/
theorem strBytes_data (s : String) :
    strBytes s = (s.data.flatMap String.utf8EncodeChar).map (fun b : UInt8 => b.toNat) := by
  unfold strBytes String.toUTF8
  rfl

/-- A string that is not empty has at least one UTF-8 byte. -/
theorem strBytes_ne_nil {s : String} (h : s.isEmpty = false) : strBytes s ≠ [] := by
  have hs : s ≠ "" := by
    intro e
    rw [e] at h
    exact absurd h (by decide)
  have hd : s.data ≠ [] := by
    intro hd
    apply hs
    cases s with
    | mk d => cases hd; rfl
  obtain ⟨c, t, hct⟩ := List.exists_cons_of_ne_nil hd
  intro hnil
  have hlen : (strBytes s).length = 0 := by rw [hnil]; rfl
  rw [strBytes_data, hct, List.length_map, List.flatMap_cons, List.length_append,
    String.length_utf8EncodeChar] at hlen
  have := c.utf8Size_pos
  omega

/-- A failed `seekChunks` scan has consumed the whole iterator. -/
theorem seekChunks_none {α : Type} {emptyFn : α → Bool} :
    ∀ {l rest : List α}, seekChunks emptyFn l = (none, rest) → rest = []
  | [], _, h => by simpa [seekChunks] using (congrArg Prod.snd h).symm
  | c :: t, rest, h => by
    by_cases hc : emptyFn c = true
    · exact seekChunks_none (by simpa [seekChunks, hc] using h)
    · simp [seekChunks, hc] at h

/-- A successful `seekChunks` scan yields an item that is not empty. -/
theorem seekChunks_some {α : Type} {emptyFn : α → Bool} :
    ∀ {l rest : List α} {c : α}, seekChunks emptyFn l = (some c, rest) → emptyFn c = false
  | [], _, _, h => by simp [seekChunks] at h
  | a :: t, rest, c, h => by
    by_cases ha : emptyFn a = true
    · exact seekChunks_some (by simpa [seekChunks, ha] using h)
    · simp [seekChunks, ha] at h
      rw [← h.1]
      simpa using ha

/-- A failed forward rope scan has consumed every remaining chunk. -/
theorem seekList_none : ∀ {l : List String} {k : Nat},
    seekList l = (none, k) → k = l.length
  | [], _, h => by simpa [seekList] using (congrArg Prod.snd h).symm
  | c :: t, k, h => by
    by_cases hc : c.isEmpty = true
    · simp [seekList, hc] at h
      have := @seekList_none t ((seekList t).2) (by
        rw [Prod.ext_iff]
        exact ⟨h.1, rfl⟩)
      simp [← h.2, this]
    · simp [seekList, hc] at h

/-- A successful forward rope scan yields a chunk that is not empty. -/
theorem seekList_some : ∀ {l : List String} {c : String} {k : Nat},
    seekList l = (some c, k) → c.isEmpty = false
  | [], _, _, h => by simp [seekList] at h
  | a :: t, c, k, h => by
    by_cases ha : a.isEmpty = true
    · refine @seekList_some t c ((seekList t).2) ?_
      simp [seekList, ha] at h
      rw [Prod.ext_iff]
      exact ⟨h.1, rfl⟩
    · simp [seekList, ha] at h
      rw [← h.1]
      simpa using ha

/-- The forward rope scan never consumes more items than remain. -/
theorem seekList_le : ∀ (l : List String), (seekList l).2 ≤ l.length
  | [] => by simp [seekList]
  | c :: t => by
    by_cases hc : c.isEmpty = true
    · simpa [seekList, hc] using seekList_le t
    · simp [seekList, hc]

/-- A successful backward rope scan stops at an index holding the found chunk;
in particular that index is in range and the chunk is not empty. -/
theorem seekBwdGo_some : ∀ {cs : List String} {p p2 : Nat} {c : String},
    seekBwdGo cs p = (some c, p2) → cs[p2]? = some c ∧ c.isEmpty = false
  | _, 0, _, _, h => by simp [seekBwdGo] at h
  | cs, p + 1, p2, c, h => by
    match hg : cs[p]? with
    | none => simp [seekBwdGo, hg] at h
    | some a =>
      by_cases ha : a.isEmpty = true
      · exact seekBwdGo_some (by simpa [seekBwdGo, hg, ha] using h)
      · simp [seekBwdGo, hg, ha] at h
        refine ⟨?_, ?_⟩
        · rw [← h.2, hg, h.1]
        · rw [← h.1]
          simpa using ha

/-- A failed backward rope scan from a position inside the sequence ends at
position `0`. -/
theorem seekBwdGo_none : ∀ {cs : List String} {p p2 : Nat},
    p ≤ cs.length → seekBwdGo cs p = (none, p2) → p2 = 0
  | _, 0, _, _, h => by simpa [seekBwdGo] using (congrArg Prod.snd h).symm
  | cs, p + 1, p2, hp, h => by
    have hlt : p < cs.length := hp
    rw [seekBwdGo, List.getElem?_eq_getElem hlt] at h
    by_cases ha : cs[p].isEmpty = true
    · exact seekBwdGo_none (Nat.le_of_lt hlt) (by simpa [ha] using h)
    · simp [ha] at h

/-! ### Failure states of the cursors -/

/-- A failed forward-only advance has exhausted the iterator: repeating it
fails again and leaves the state unchanged. -/
theorem bytesAdvanceFail {b b' : Bytes} (h : b.advance = (false, b')) :
    b'.advance = (false, b') := by
  unfold Bytes.advance at h ⊢
  rcases hs : seekChunks (fun c => c.isEmpty) b.iter with ⟨r1, rest⟩
  rw [hs] at h
  cases r1 with
  | some c => simp at h
  | none =>
    have hrest : rest = [] := seekChunks_none hs
    simp only [Prod.mk.injEq] at h
    rw [← h.2, hrest]
    rfl

/-- Text-chunk analogue of `bytesAdvanceFail`. -/
theorem utf8BytesAdvanceFail {u u' : Utf8Bytes} (h : u.advance = (false, u')) :
    u'.advance = (false, u') := by
  unfold Utf8Bytes.advance at h ⊢
  rcases hs : seekChunks String.isEmpty u.iter with ⟨r1, rest⟩
  rw [hs] at h
  cases r1 with
  | some c => simp at h
  | none =>
    have hrest : rest = [] := seekChunks_none hs
    simp only [Prod.mk.injEq] at h
    rw [← h.2, hrest]
    rfl

/-- A failed forward rope scan leaves the iterator with no chunk remaining. -/
theorem seekFwd_none {it it2 : Chunks} (h : it.seekFwd = (none, it2)) :
    it2 = ⟨it.chunks, it.pos + (it.chunks.drop it.pos).length⟩ ∧
    it2.chunks.drop it2.pos = [] := by
  unfold Chunks.seekFwd at h
  simp only [Prod.mk.injEq] at h
  have hfull : seekList (it.chunks.drop it.pos)
      = (none, (seekList (it.chunks.drop it.pos)).2) := Prod.ext h.1 rfl
  have hk := seekList_none hfull
  constructor
  · rw [← h.2, hk]
  · rw [← h.2, hk]
    show it.chunks.drop (it.pos + (it.chunks.drop it.pos).length) = []
    rw [← List.drop_drop, List.drop_length]

/-- Advancing the rope cursor when no chunk remains forward fails and leaves
the whole state unchanged. -/
theorem ropeAdvanceStuck (cs : List String) (q : Nat) (cur : List Nat)
    (hq : cs.drop q = []) :
    RopeyCursor.advance ⟨⟨cs, q⟩, cur, Pos.ChunkEnd⟩
      = (false, ⟨⟨cs, q⟩, cur, Pos.ChunkEnd⟩) := by
  unfold RopeyCursor.advance
  simp [Chunks.seekFwd, hq, seekList]

/-- Once `RopeyCursor::advance` has returned `false`, it returns `false` again
and leaves the state unchanged. -/
theorem ropeAdvanceFail {rc rc' : RopeyCursor} (h : rc.advance = (false, rc')) :
    rc'.advance = (false, rc') := by
  obtain ⟨it, cur, m⟩ := rc
  have h' : (match (match m with
        | Pos.ChunkStart => (it.next).2
        | Pos.ChunkEnd => it).seekFwd with
      | (some c, it2) => ((true : Bool), (⟨it2, strBytes c, Pos.ChunkEnd⟩ : RopeyCursor))
      | (none, it2) => ((false : Bool), (⟨it2, cur, Pos.ChunkEnd⟩ : RopeyCursor)))
        = (false, rc') := by
    rw [← h]
    cases m <;> rfl
  rcases hs : (match m with
      | Pos.ChunkStart => (it.next).2
      | Pos.ChunkEnd => it).seekFwd with ⟨r1, it2⟩
  rw [hs] at h'
  cases r1 with
  | some c => simp at h'
  | none =>
    obtain ⟨-, hdrop⟩ := seekFwd_none hs
    simp only [Prod.mk.injEq] at h'
    rw [← h'.2]
    obtain ⟨cs2, q2⟩ := it2
    exact ropeAdvanceStuck cs2 q2 cur hdrop

/-- Backtracking the rope cursor from iterator position `0` with the marker at
`ChunkStart` fails and leaves the whole state unchanged. -/
theorem ropeBacktrackStuck (cs : List String) (cur : List Nat) :
    RopeyCursor.backtrack ⟨⟨cs, 0⟩, cur, Pos.ChunkStart⟩
      = (false, ⟨⟨cs, 0⟩, cur, Pos.ChunkStart⟩) := rfl

/-- A failed backward rope scan from a position inside the sequence leaves the
iterator at position `0`. -/
theorem seekBwd_none {it it2 : Chunks} (hwf : it.pos ≤ it.chunks.length)
    (h : it.seekBwd = (none, it2)) : it2 = ⟨it.chunks, 0⟩ := by
  unfold Chunks.seekBwd at h
  simp only [Prod.mk.injEq] at h
  have hfull : seekBwdGo it.chunks it.pos
      = (none, (seekBwdGo it.chunks it.pos).2) := Prod.ext h.1 rfl
  have h0 := seekBwdGo_none hwf hfull
  rw [← h.2, h0]

/-- Once `RopeyCursor::backtrack` has returned `false` (from any state whose
iterator position is in range), it returns `false` again and leaves the state
unchanged. -/
theorem ropeBacktrackFail {rc rc' : RopeyCursor}
    (hwf : rc.iter.pos ≤ rc.iter.chunks.length)
    (h : rc.backtrack = (false, rc')) : rc'.backtrack = (false, rc') := by
  obtain ⟨⟨cs, p⟩, cur, m⟩ := rc
  have h' : (match (match m with
        | Pos.ChunkStart => (⟨cs, p⟩ : Chunks)
        | Pos.ChunkEnd => ((⟨cs, p⟩ : Chunks).prev).2).seekBwd with
      | (some c, it2) => ((true : Bool), (⟨it2, strBytes c, Pos.ChunkStart⟩ : RopeyCursor))
      | (none, it2) => ((false : Bool), (⟨it2, cur, Pos.ChunkStart⟩ : RopeyCursor)))
        = (false, rc') := by
    rw [← h]
    cases m <;> rfl
  have hwf1 : (match m with
      | Pos.ChunkStart => (⟨cs, p⟩ : Chunks)
      | Pos.ChunkEnd => ((⟨cs, p⟩ : Chunks).prev).2).pos ≤ cs.length ∧
      (match m with
      | Pos.ChunkStart => (⟨cs, p⟩ : Chunks)
      | Pos.ChunkEnd => ((⟨cs, p⟩ : Chunks).prev).2).chunks = cs := by
    cases m with
    | ChunkStart => exact ⟨hwf, rfl⟩
    | ChunkEnd =>
      cases p with
      | zero => exact ⟨Nat.zero_le _, rfl⟩
      | succ q =>
        refine ⟨?_, rfl⟩
        simp only [Chunks.prev]
        exact Nat.le_of_succ_le hwf
  rcases hs : (match m with
      | Pos.ChunkStart => (⟨cs, p⟩ : Chunks)
      | Pos.ChunkEnd => ((⟨cs, p⟩ : Chunks).prev).2).seekBwd with ⟨r1, it2⟩
  rw [hs] at h'
  cases r1 with
  | some c => simp at h'
  | none =>
    have hit2 := seekBwd_none (by rw [hwf1.2]; exact hwf1.1) hs
    simp only [Prod.mk.injEq] at h'
    rw [← h'.2, hit2, hwf1.2]
    exact ropeBacktrackStuck cs cur

/-- A successful forward rope scan yields a chunk that is not empty. -/
theorem seekFwd_some {it it2 : Chunks} {c : String} (h : it.seekFwd = (some c, it2)) :
    c.isEmpty = false := by
  refine @seekList_some (it.chunks.drop it.pos) c ((seekList (it.chunks.drop it.pos)).2) ?_
  have h1 : (seekList (it.chunks.drop it.pos)).1 = some c := congrArg Prod.fst h
  exact Prod.ext h1 rfl

/-- A successful backward rope scan yields a chunk that is not empty. -/
theorem seekBwd_some {it it2 : Chunks} {c : String} (h : it.seekBwd = (some c, it2)) :
    c.isEmpty = false := by
  refine (@seekBwdGo_some it.chunks it.pos ((seekBwdGo it.chunks it.pos).2) c ?_).2
  have h1 : (seekBwdGo it.chunks it.pos).1 = some c := congrArg Prod.fst h
  exact Prod.ext h1 rfl

/-! ### Claim theorems -/

/-- C5: for the flat-buffer cursors over a byte slice or a string slice, every
`advance()` and every `backtrack()` call returns `false` and leaves the state
unchanged (hence these hold regardless of any prior sequence of operations),
`chunk()` always returns the entire original span (the string's full UTF-8
bytes for the string variant), and `utf8_aware()` always returns `true`. -/
theorem C5_flat_buffer_cursors (b : ByteSliceCursor) (s : StrSliceCursor) :
    b.advance = (false, b) ∧ b.backtrack = (false, b) ∧
    b.chunk = b.data ∧ b.utf8_aware = true ∧
    s.advance = (false, s) ∧ s.backtrack = (false, s) ∧
    s.chunk = strBytes s.data ∧ s.utf8_aware = true :=
  ⟨rfl, rfl, rfl, rfl, rfl, rfl, rfl, rfl⟩

/-- C6: for both forward-only iterator cursors, `backtrack()` returns `false`
unconditionally and leaves the state unchanged, hence for every underlying
iterator and every prior sequence of operations. -/
theorem C6_forward_only_backtrack (b : Bytes) (u : Utf8Bytes) :
    b.backtrack = (false, b) ∧ u.backtrack = (false, u) :=
  ⟨rfl, rfl⟩

/-- C7: `utf8_aware()` is a per-variant constant, independent of the cursor
state: `false` for the raw byte-chunk iterator cursor and `true` for the
text-chunk iterator cursor, the rope cursor and both flat-buffer cursors. -/
theorem C7_utf8_aware_constant (b : Bytes) (u : Utf8Bytes) (rc : RopeyCursor)
    (cb : ByteSliceCursor) (cs : StrSliceCursor) :
    b.utf8_aware = false ∧ u.utf8_aware = true ∧ rc.utf8_aware = true ∧
    cb.utf8_aware = true ∧ cs.utf8_aware = true :=
  ⟨rfl, rfl, rfl, rfl, rfl⟩

/-- C2: over an iterator yielding `["", "ab", "", "", "cd"]` (for any initial
current chunk), the forward-only cursors' successive `advance()` calls surface
exactly `"ab"` then `"cd"` as `chunk()`: the first two calls return `true` and
the third returns `false`, and no empty chunk is ever the current chunk.  This
holds for both the raw byte-chunk variant and the text-chunk variant. -/
theorem C2_empty_chunk_skipping (cur ucur : List Nat) :
    ((Bytes.advance ⟨[[], [97, 98], [], [], [99, 100]], cur⟩).1 = true ∧
     ((Bytes.advance ⟨[[], [97, 98], [], [], [99, 100]], cur⟩).2).chunk = [97, 98] ∧
     ((Bytes.advance ⟨[[], [97, 98], [], [], [99, 100]], cur⟩).2).advance.1 = true ∧
     (((Bytes.advance ⟨[[], [97, 98], [], [], [99, 100]], cur⟩).2).advance.2).chunk
        = [99, 100] ∧
     (((Bytes.advance ⟨[[], [97, 98], [], [], [99, 100]], cur⟩).2).advance.2).advance.1
        = false) ∧
    ((Utf8Bytes.advance ⟨["", "ab", "", "", "cd"], ucur⟩).1 = true ∧
     ((Utf8Bytes.advance ⟨["", "ab", "", "", "cd"], ucur⟩).2).chunk = strBytes "ab" ∧
     ((Utf8Bytes.advance ⟨["", "ab", "", "", "cd"], ucur⟩).2).advance.1 = true ∧
     (((Utf8Bytes.advance ⟨["", "ab", "", "", "cd"], ucur⟩).2).advance.2).chunk
        = strBytes "cd" ∧
     (((Utf8Bytes.advance ⟨["", "ab", "", "", "cd"], ucur⟩).2).advance.2).advance.1
        = false) :=
  ⟨⟨rfl, rfl, rfl, rfl, rfl⟩, ⟨rfl, rfl, rfl, rfl, rfl⟩⟩

/-- C8: constructing the rope cursor from an iterator that yields no chunks
gives a cursor whose first `chunk()` is the empty span and whose first
`advance()` returns `false`. -/
theorem C8_empty_rope_construction :
    (RopeyCursor.new ⟨[], 0⟩).chunk = [] ∧
    ((RopeyCursor.new ⟨[], 0⟩).advance).1 = false :=
  ⟨rfl, rfl⟩

/-- C9: for the rope cursor, a `backtrack()` from the initial position (right
after construction, before any `advance()`) returns `false`, for every chunk
sequence — in particular also when the source has more than one chunk. -/
theorem C9_initial_backtrack_fails (cs : List String) :
    ((RopeyCursor.new ⟨cs, 0⟩).backtrack).1 = false := by
  cases cs with
  | nil => rfl
  | cons c t =>
    simp [RopeyCursor.new, RopeyCursor.backtrack, Chunks.next, Chunks.prev,
      Chunks.seekBwd, seekBwdGo]

/-- C1: for the bidirectional rope cursor over non-empty chunks
`[c0, c1, c2]`, starting with `chunk() = c0`: `advance()` then `backtrack()`
returns to `c0`, and `advance()` twice then `backtrack()` twice also returns
to `c0` — alternating direction neither skips nor duplicates a chunk. -/
theorem C1_rope_round_trip (c0 c1 c2 : String)
    (h0 : c0.isEmpty = false) (h1 : c1.isEmpty = false) (h2 : c2.isEmpty = false) :
    (RopeyCursor.new ⟨[c0, c1, c2], 0⟩).chunk = strBytes c0 ∧
    ((((RopeyCursor.new ⟨[c0, c1, c2], 0⟩).advance).2).backtrack).2.chunk = strBytes c0 ∧
    ((((((RopeyCursor.new ⟨[c0, c1, c2], 0⟩).advance).2).advance).2).backtrack).2.backtrack.2.chunk
      = strBytes c0 := by
  refine ⟨rfl, ?_, ?_⟩ <;>
    simp [RopeyCursor.new, RopeyCursor.advance, RopeyCursor.backtrack, RopeyCursor.chunk,
      Chunks.next, Chunks.prev, Chunks.seekFwd, Chunks.seekBwd, seekList, seekBwdGo,
      h0, h1, h2]

/-- C1 witness: the round trip evaluated on the concrete chunks
`["a", "b", "c"]`. -/
theorem C1_rope_round_trip_witness :
    (RopeyCursor.new ⟨["a", "b", "c"], 0⟩).chunk = strBytes "a" ∧
    ((((RopeyCursor.new ⟨["a", "b", "c"], 0⟩).advance).2).backtrack).2.chunk = strBytes "a" ∧
    ((((((RopeyCursor.new ⟨["a", "b", "c"], 0⟩).advance).2).advance).2).backtrack).2.backtrack.2.chunk
      = strBytes "a" :=
  C1_rope_round_trip "a" "b" "c" (by decide) (by decide) (by decide)

/-- C3: for every cursor variant, once `advance()` has returned `false`, the
next `advance()` also returns `false` — and likewise for `backtrack()` — and
the failing call leaves the state unchanged, so every further repetition keeps
failing.  For the flat and forward-only variants `backtrack` (and flat
`advance`) return `false` from every state outright.  For rope `backtrack` the
iterator position is required to be in range of the chunk sequence, which
holds for every cursor produced by construction and traversal.  All operations
are total Lean functions, so no call can panic. -/
theorem C3_exhaustion_stability :
    (∀ c : ByteSliceCursor, c.advance = (false, c) ∧ c.backtrack = (false, c)) ∧
    (∀ s : StrSliceCursor, s.advance = (false, s) ∧ s.backtrack = (false, s)) ∧
    (∀ b b' : Bytes, b.advance = (false, b') → b'.advance = (false, b')) ∧
    (∀ b : Bytes, b.backtrack = (false, b)) ∧
    (∀ u u' : Utf8Bytes, u.advance = (false, u') → u'.advance = (false, u')) ∧
    (∀ u : Utf8Bytes, u.backtrack = (false, u)) ∧
    (∀ rc rc' : RopeyCursor, rc.advance = (false, rc') → rc'.advance = (false, rc')) ∧
    (∀ rc rc' : RopeyCursor, rc.iter.pos ≤ rc.iter.chunks.length →
      rc.backtrack = (false, rc') → rc'.backtrack = (false, rc')) :=
  ⟨fun _ => ⟨rfl, rfl⟩, fun _ => ⟨rfl, rfl⟩,
   fun _ _ h => bytesAdvanceFail h, fun _ => rfl,
   fun _ _ h => utf8BytesAdvanceFail h, fun _ => rfl,
   fun _ _ h => ropeAdvanceFail h, fun _ _ hwf h => ropeBacktrackFail hwf h⟩

/-- C3 witness: concrete exhausted cursors on which the failed calls repeat. -/
theorem C3_exhaustion_stability_witness :
    Bytes.advance ⟨[], [97]⟩ = (false, ⟨[], [97]⟩) ∧
    Utf8Bytes.advance ⟨[], [97]⟩ = (false, ⟨[], [97]⟩) ∧
    RopeyCursor.advance ⟨⟨["a"], 1⟩, [97], Pos.ChunkEnd⟩
      = (false, ⟨⟨["a"], 1⟩, [97], Pos.ChunkEnd⟩) ∧
    RopeyCursor.backtrack ⟨⟨["a"], 0⟩, [97], Pos.ChunkStart⟩
      = (false, ⟨⟨["a"], 0⟩, [97], Pos.ChunkStart⟩) :=
  ⟨C3_exhaustion_stability.2.2.1 ⟨[], [97]⟩ ⟨[], [97]⟩ rfl,
   C3_exhaustion_stability.2.2.2.2.1 ⟨[], [97]⟩ ⟨[], [97]⟩ rfl,
   C3_exhaustion_stability.2.2.2.2.2.2.1 ⟨⟨["a"], 1⟩, [97], Pos.ChunkEnd⟩
     ⟨⟨["a"], 1⟩, [97], Pos.ChunkEnd⟩ rfl,
   C3_exhaustion_stability.2.2.2.2.2.2.2 ⟨⟨["a"], 0⟩, [97], Pos.ChunkStart⟩
     ⟨⟨["a"], 0⟩, [97], Pos.ChunkStart⟩ (by decide) rfl⟩

/-- C4: for every cursor variant, a call of `advance()` or `backtrack()` that
returns `true` leaves `chunk()` a non-empty span (for the flat cursors no call
ever returns `true`, so the property is vacuous there). -/
theorem C4_success_chunk_nonempty :
    (∀ c c' : ByteSliceCursor, c.advance = (true, c') → c'.chunk ≠ []) ∧
    (∀ c c' : ByteSliceCursor, c.backtrack = (true, c') → c'.chunk ≠ []) ∧
    (∀ s s' : StrSliceCursor, s.advance = (true, s') → s'.chunk ≠ []) ∧
    (∀ s s' : StrSliceCursor, s.backtrack = (true, s') → s'.chunk ≠ []) ∧
    (∀ b b' : Bytes, b.advance = (true, b') → b'.chunk ≠ []) ∧
    (∀ b b' : Bytes, b.backtrack = (true, b') → b'.chunk ≠ []) ∧
    (∀ u u' : Utf8Bytes, u.advance = (true, u') → u'.chunk ≠ []) ∧
    (∀ u u' : Utf8Bytes, u.backtrack = (true, u') → u'.chunk ≠ []) ∧
    (∀ rc rc' : RopeyCursor, rc.advance = (true, rc') → rc'.chunk ≠ []) ∧
    (∀ rc rc' : RopeyCursor, rc.backtrack = (true, rc') → rc'.chunk ≠ []) := by
  refine ⟨fun c c' h => by simp [ByteSliceCursor.advance] at h,
    fun c c' h => by simp [ByteSliceCursor.backtrack] at h,
    fun s s' h => by simp [StrSliceCursor.advance] at h,
    fun s s' h => by simp [StrSliceCursor.backtrack] at h,
    ?_, fun b b' h => by simp [Bytes.backtrack] at h,
    ?_, fun u u' h => by simp [Utf8Bytes.backtrack] at h, ?_, ?_⟩
  · intro b b' h
    unfold Bytes.advance at h
    rcases hs : seekChunks (fun c => c.isEmpty) b.iter with ⟨r1, rest⟩
    rw [hs] at h
    cases r1 with
    | none => simp at h
    | some c =>
      have hc := seekChunks_some hs
      simp only [Prod.mk.injEq] at h
      rw [← h.2]
      show c ≠ []
      intro e
      rw [e] at hc
      exact absurd hc (by decide)
  · intro u u' h
    unfold Utf8Bytes.advance at h
    rcases hs : seekChunks String.isEmpty u.iter with ⟨r1, rest⟩
    rw [hs] at h
    cases r1 with
    | none => simp at h
    | some c =>
      have hc := seekChunks_some hs
      simp only [Prod.mk.injEq] at h
      rw [← h.2]
      exact strBytes_ne_nil hc
  · intro rc rc' h
    obtain ⟨it, cur, m⟩ := rc
    have h' : (match (match m with
          | Pos.ChunkStart => (it.next).2
          | Pos.ChunkEnd => it).seekFwd with
        | (some c, it2) => ((true : Bool), (⟨it2, strBytes c, Pos.ChunkEnd⟩ : RopeyCursor))
        | (none, it2) => ((false : Bool), (⟨it2, cur, Pos.ChunkEnd⟩ : RopeyCursor)))
          = (true, rc') := by
      rw [← h]
      cases m <;> rfl
    rcases hs : (match m with
        | Pos.ChunkStart => (it.next).2
        | Pos.ChunkEnd => it).seekFwd with ⟨r1, it2⟩
    rw [hs] at h'
    cases r1 with
    | none => simp at h'
    | some c =>
      have hc : c.isEmpty = false := seekFwd_some hs
      simp only [Prod.mk.injEq] at h'
      rw [← h'.2]
      exact strBytes_ne_nil hc
  · intro rc rc' h
    obtain ⟨it, cur, m⟩ := rc
    have h' : (match (match m with
          | Pos.ChunkStart => it
          | Pos.ChunkEnd => (it.prev).2).seekBwd with
        | (some c, it2) => ((true : Bool), (⟨it2, strBytes c, Pos.ChunkStart⟩ : RopeyCursor))
        | (none, it2) => ((false : Bool), (⟨it2, cur, Pos.ChunkStart⟩ : RopeyCursor)))
          = (true, rc') := by
      rw [← h]
      cases m <;> rfl
    rcases hs : (match m with
        | Pos.ChunkStart => it
        | Pos.ChunkEnd => (it.prev).2).seekBwd with ⟨r1, it2⟩
    rw [hs] at h'
    cases r1 with
    | none => simp at h'
    | some c =>
      have hc : c.isEmpty = false := seekBwd_some hs
      simp only [Prod.mk.injEq] at h'
      rw [← h'.2]
      exact strBytes_ne_nil hc

/-- C4 witness: concrete successful calls whose resulting chunk is checked. -/
theorem C4_success_chunk_nonempty_witness :
    (Bytes.advance ⟨[[97]], []⟩).2.chunk ≠ [] ∧
    (Utf8Bytes.advance ⟨["a"], []⟩).2.chunk ≠ [] ∧
    (RopeyCursor.advance ⟨⟨["a", "b"], 1⟩, [97], Pos.ChunkEnd⟩).2.chunk ≠ [] ∧
    (RopeyCursor.backtrack ⟨⟨["a", "b"], 1⟩, [98], Pos.ChunkStart⟩).2.chunk ≠ [] :=
  ⟨C4_success_chunk_nonempty.2.2.2.2.1 ⟨[[97]], []⟩ _ rfl,
   C4_success_chunk_nonempty.2.2.2.2.2.2.1 ⟨["a"], []⟩ _ rfl,
   C4_success_chunk_nonempty.2.2.2.2.2.2.2.2.1 ⟨⟨["a", "b"], 1⟩, [97], Pos.ChunkEnd⟩ _ rfl,
   C4_success_chunk_nonempty.2.2.2.2.2.2.2.2.2 ⟨⟨["a", "b"], 1⟩, [98], Pos.ChunkStart⟩ _ rfl⟩

/-! ### Rope cursor: reachable states and scans over empty-chunk-free sources -/

/-- The forward scan from a position strictly inside a sequence with no empty
chunks finds exactly the next chunk. -/
theorem seekFwd_nonempty {cs : List String} (hne : ∀ c ∈ cs, c.isEmpty = false)
    {q : Nat} (hq : q < cs.length) :
    (⟨cs, q⟩ : Chunks).seekFwd = (some cs[q], ⟨cs, q + 1⟩) := by
  have hdrop : cs.drop q = cs[q] :: cs.drop (q + 1) := List.drop_eq_getElem_cons hq
  have hcne : cs[q].isEmpty = false := hne _ (List.getElem_mem hq)
  unfold Chunks.seekFwd
  rw [hdrop]
  simp [seekList, hcne]

/-- The forward scan from the end of the sequence (or beyond) fails without
moving. -/
theorem seekFwd_exhausted {cs : List String} {q : Nat} (hq : cs.length ≤ q) :
    (⟨cs, q⟩ : Chunks).seekFwd = (none, ⟨cs, q⟩) := by
  unfold Chunks.seekFwd
  rw [List.drop_eq_nil_of_le hq]
  simp [seekList]

/-- The backward scan from a position strictly inside a sequence with no empty
chunks finds exactly the previous chunk. -/
theorem seekBwd_nonempty {cs : List String} (hne : ∀ c ∈ cs, c.isEmpty = false)
    {q : Nat} (hq : q < cs.length) :
    (⟨cs, q + 1⟩ : Chunks).seekBwd = (some cs[q], ⟨cs, q⟩) := by
  have hcne : cs[q].isEmpty = false := hne _ (List.getElem_mem hq)
  unfold Chunks.seekBwd seekBwdGo
  rw [List.getElem?_eq_getElem hq]
  simp [hcne]

/-- The backward scan from position `0` fails without moving. -/
theorem seekBwd_zero (cs : List String) : (⟨cs, 0⟩ : Chunks).seekBwd = (none, ⟨cs, 0⟩) := rfl

/-- Structural invariant of reachable rope cursor states: the iterator position
is in range of the chunk sequence and agrees with the marker — with marker
`ChunkEnd` the position is past at least one chunk, with marker `ChunkStart` it
is strictly before the end, except over the empty sequence. -/
def RopeyCursor.Inv (rc : RopeyCursor) : Prop :=
  rc.iter.pos ≤ rc.iter.chunks.length ∧
  (rc.pos = Pos.ChunkEnd → rc.iter.chunks = [] ∨ 1 ≤ rc.iter.pos) ∧
  (rc.pos = Pos.ChunkStart → rc.iter.chunks = [] ∨ rc.iter.pos < rc.iter.chunks.length)

/-- Unfolding of `advance` when the marker is `ChunkEnd`: no realignment. -/
theorem ropeAdvance_end (it : Chunks) (cur : List Nat) :
    RopeyCursor.advance ⟨it, cur, Pos.ChunkEnd⟩
      = (match it.seekFwd with
         | (some c, it2) => ((true : Bool), (⟨it2, strBytes c, Pos.ChunkEnd⟩ : RopeyCursor))
         | (none, it2) => ((false : Bool), (⟨it2, cur, Pos.ChunkEnd⟩ : RopeyCursor))) := rfl

/-- Unfolding of `advance` when the marker is `ChunkStart`: one forward step of
the iterator is discarded first. -/
theorem ropeAdvance_start (it : Chunks) (cur : List Nat) :
    RopeyCursor.advance ⟨it, cur, Pos.ChunkStart⟩
      = RopeyCursor.advance ⟨(it.next).2, cur, Pos.ChunkEnd⟩ := rfl

/-- Unfolding of `backtrack` when the marker is `ChunkStart`: no realignment. -/
theorem ropeBacktrack_start (it : Chunks) (cur : List Nat) :
    RopeyCursor.backtrack ⟨it, cur, Pos.ChunkStart⟩
      = (match it.seekBwd with
         | (some c, it2) => ((true : Bool), (⟨it2, strBytes c, Pos.ChunkStart⟩ : RopeyCursor))
         | (none, it2) => ((false : Bool), (⟨it2, cur, Pos.ChunkStart⟩ : RopeyCursor))) := rfl

/-- Unfolding of `backtrack` when the marker is `ChunkEnd`: one backward step
of the iterator is discarded first. -/
theorem ropeBacktrack_end (it : Chunks) (cur : List Nat) :
    RopeyCursor.backtrack ⟨it, cur, Pos.ChunkEnd⟩
      = RopeyCursor.backtrack ⟨(it.prev).2, cur, Pos.ChunkStart⟩ := rfl

/-- Forward iterator step inside the sequence. -/
theorem chunksNext_lt {cs : List String} {p : Nat} (h : p < cs.length) :
    (⟨cs, p⟩ : Chunks).next = (some cs[p], ⟨cs, p + 1⟩) := by
  unfold Chunks.next
  rw [List.getElem?_eq_getElem h]

/-- Forward iterator step at or past the end of the sequence. -/
theorem chunksNext_ge {cs : List String} {p : Nat} (h : cs.length ≤ p) :
    (⟨cs, p⟩ : Chunks).next = (none, ⟨cs, p⟩) := by
  unfold Chunks.next
  rw [List.getElem?_eq_none h]

/-- Construction establishes the invariant (from any in-range iterator
position). -/
theorem RopeyCursor.Inv_new (cs : List String) (p : Nat) (hp : p ≤ cs.length) :
    (RopeyCursor.new ⟨cs, p⟩).Inv := by
  by_cases hlt : p < cs.length
  · have hnew : RopeyCursor.new ⟨cs, p⟩
        = ⟨⟨cs, p + 1⟩, strBytes cs[p], Pos.ChunkEnd⟩ := by
      unfold RopeyCursor.new
      rw [chunksNext_lt hlt]
      rfl
    rw [hnew]
    exact ⟨hlt, fun _ => Or.inr (Nat.le_add_left 1 p), fun hc => nomatch hc⟩
  · have hge := Nat.le_of_not_lt hlt
    have hnew : RopeyCursor.new ⟨cs, p⟩ = ⟨⟨cs, p⟩, strBytes "", Pos.ChunkEnd⟩ := by
      unfold RopeyCursor.new
      rw [chunksNext_ge hge]
      rfl
    rw [hnew]
    refine ⟨hp, fun _ => ?_, fun hc => nomatch hc⟩
    cases cs with
    | nil => exact Or.inl rfl
    | cons a t =>
      refine Or.inr ?_
      show 1 ≤ p
      simp only [List.length_cons] at hge
      omega

/-- Operation `advance` preserves the invariant. -/
theorem RopeyCursor.Inv_advance {rc : RopeyCursor} (h : rc.Inv) :
    ((rc.advance).2).Inv := by
  obtain ⟨⟨cs, p⟩, cur, m⟩ := rc
  obtain ⟨h1, h2, h3⟩ := h
  dsimp only at h1 h2 h3
  have key : ∀ q : Nat, q ≤ cs.length → (cs = [] ∨ 1 ≤ q) →
      ((RopeyCursor.advance ⟨⟨cs, q⟩, cur, Pos.ChunkEnd⟩).2).Inv := by
    intro q hq hq1
    rw [ropeAdvance_end]
    rcases hs : (⟨cs, q⟩ : Chunks).seekFwd with ⟨r1, it2⟩
    have hit2 : it2 = ⟨cs, q + (seekList (cs.drop q)).2⟩ := (congrArg Prod.snd hs).symm
    have hk := seekList_le (cs.drop q)
    rw [List.length_drop] at hk
    cases r1 with
    | some c =>
      dsimp only
      refine ⟨?_, fun _ => ?_, fun hc => nomatch hc⟩
      · show it2.pos ≤ it2.chunks.length
        rw [hit2]
        show q + (seekList (cs.drop q)).2 ≤ cs.length
        omega
      · rcases hq1 with hnil | h1q
        · exact Or.inl (by rw [hit2, hnil])
        · refine Or.inr ?_
          rw [hit2]
          show 1 ≤ q + (seekList (cs.drop q)).2
          omega
    | none =>
      dsimp only
      refine ⟨?_, fun _ => ?_, fun hc => nomatch hc⟩
      · show it2.pos ≤ it2.chunks.length
        rw [hit2]
        show q + (seekList (cs.drop q)).2 ≤ cs.length
        omega
      · rcases hq1 with hnil | h1q
        · exact Or.inl (by rw [hit2, hnil])
        · refine Or.inr ?_
          rw [hit2]
          show 1 ≤ q + (seekList (cs.drop q)).2
          omega
  cases m with
  | ChunkEnd => exact key p h1 (h2 rfl)
  | ChunkStart =>
    rcases h3 rfl with hnil | hlt
    · have hp0 : p = 0 := by rw [hnil] at h1; simpa using h1
      subst hp0
      rw [hnil]
      have hred : ((RopeyCursor.advance ⟨⟨([] : List String), 0⟩, cur, Pos.ChunkStart⟩).2)
          = ⟨⟨[], 0⟩, cur, Pos.ChunkEnd⟩ := rfl
      rw [hred]
      exact ⟨Nat.zero_le _, fun _ => Or.inl rfl, fun hc => nomatch hc⟩
    · rw [ropeAdvance_start, chunksNext_lt hlt]
      exact key (p + 1) hlt (Or.inr (Nat.le_add_left 1 p))

/-- Operation `backtrack` preserves the invariant. -/
theorem RopeyCursor.Inv_backtrack {rc : RopeyCursor} (h : rc.Inv) :
    ((rc.backtrack).2).Inv := by
  obtain ⟨⟨cs, p⟩, cur, m⟩ := rc
  obtain ⟨h1, h2, h3⟩ := h
  dsimp only at h1 h2 h3
  have key : ∀ q : Nat, q ≤ cs.length →
      ((RopeyCursor.backtrack ⟨⟨cs, q⟩, cur, Pos.ChunkStart⟩).2).Inv := by
    intro q hq
    rw [ropeBacktrack_start]
    rcases hs : (⟨cs, q⟩ : Chunks).seekBwd with ⟨r1, it2⟩
    have hit2 : it2 = ⟨cs, (seekBwdGo cs q).2⟩ := (congrArg Prod.snd hs).symm
    cases r1 with
    | some c =>
      have hsome : (seekBwdGo cs q).1 = some c := congrArg Prod.fst hs
      have hfull : seekBwdGo cs q = (some c, (seekBwdGo cs q).2) := by
        rw [← hsome]
      obtain ⟨hget, -⟩ := seekBwdGo_some hfull
      have hlt : (seekBwdGo cs q).2 < cs.length := by
        by_contra hnot
        rw [List.getElem?_eq_none (Nat.le_of_not_lt hnot)] at hget
        cases hget
      rw [hit2]
      unfold RopeyCursor.Inv
      dsimp only
      refine ⟨Nat.le_of_lt hlt, ?_, ?_⟩
      · intro hc
        cases hc
      · intro _
        exact Or.inr hlt
    | none =>
      have hnone : (seekBwdGo cs q).1 = none := congrArg Prod.fst hs
      have hfull : seekBwdGo cs q = (none, (seekBwdGo cs q).2) := by
        rw [← hnone]
      have hz := seekBwdGo_none hq hfull
      rw [hit2, hz]
      unfold RopeyCursor.Inv
      dsimp only
      refine ⟨Nat.zero_le _, ?_, ?_⟩
      · intro hc
        cases hc
      · intro _
        cases cs with
        | nil => exact Or.inl rfl
        | cons a t => exact Or.inr (by simp)
  cases m with
  | ChunkStart => exact key p h1
  | ChunkEnd =>
    cases p with
    | zero =>
      rw [ropeBacktrack_end]
      exact key 0 (Nat.zero_le _)
    | succ q =>
      rw [ropeBacktrack_end]
      exact key q (Nat.le_of_succ_le h1)

/-- A failed `advance` leaves the current chunk unchanged. -/
theorem ropeAdvanceFail_chunk {rc rc' : RopeyCursor} (h : rc.advance = (false, rc')) :
    rc'.chunk = rc.chunk := by
  obtain ⟨it, cur, m⟩ := rc
  have h' : (match (match m with
        | Pos.ChunkStart => (it.next).2
        | Pos.ChunkEnd => it).seekFwd with
      | (some c, it2) => ((true : Bool), (⟨it2, strBytes c, Pos.ChunkEnd⟩ : RopeyCursor))
      | (none, it2) => ((false : Bool), (⟨it2, cur, Pos.ChunkEnd⟩ : RopeyCursor)))
        = (false, rc') := by
    rw [← h]
    cases m <;> rfl
  rcases hs : (match m with
      | Pos.ChunkStart => (it.next).2
      | Pos.ChunkEnd => it).seekFwd with ⟨r1, it2⟩
  rw [hs] at h'
  cases r1 with
  | some c => simp at h'
  | none =>
    simp only [Prod.mk.injEq] at h'
    rw [← h'.2]
    rfl

/-- A failed `backtrack` leaves the current chunk unchanged. -/
theorem ropeBacktrackFail_chunk {rc rc' : RopeyCursor} (h : rc.backtrack = (false, rc')) :
    rc'.chunk = rc.chunk := by
  obtain ⟨it, cur, m⟩ := rc
  have h' : (match (match m with
        | Pos.ChunkStart => it
        | Pos.ChunkEnd => (it.prev).2).seekBwd with
      | (some c, it2) => ((true : Bool), (⟨it2, strBytes c, Pos.ChunkStart⟩ : RopeyCursor))
      | (none, it2) => ((false : Bool), (⟨it2, cur, Pos.ChunkStart⟩ : RopeyCursor)))
        = (false, rc') := by
    rw [← h]
    cases m <;> rfl
  rcases hs : (match m with
      | Pos.ChunkStart => it
      | Pos.ChunkEnd => (it.prev).2).seekBwd with ⟨r1, it2⟩
  rw [hs] at h'
  cases r1 with
  | some c => simp at h'
  | none =>
    simp only [Prod.mk.injEq] at h'
    rw [← h'.2]
    rfl

/-- C10 counterexample: over the chunk sequence `["a", "b", ""]`, after
advancing to `"b"`, a further `advance()` fails (returns `false`); the
`backtrack()` that follows the failed call surfaces a different chunk than the
`backtrack()` issued directly (without the failed `advance()`): the failed
`advance()` consumed the trailing empty chunk, so the cursor is not
observationally transparent about it. -/
theorem C10_counterexample :
    (((RopeyCursor.new ⟨["a", "b", ""], 0⟩).advance.2).advance).1 = false ∧
    ((((RopeyCursor.new ⟨["a", "b", ""], 0⟩).advance.2).advance.2).backtrack).2.chunk
      ≠ (((RopeyCursor.new ⟨["a", "b", ""], 0⟩).advance.2).backtrack).2.chunk := by
  decide

/-- C10 (amended): for the rope cursor, a failed traversal call always keeps
`chunk()` unchanged; and — provided the cursor satisfies the structural
invariant of reachable states and the source contains no empty chunks — a
failed `advance()` or `backtrack()` is observationally transparent: repeating
the failed call fails again with the same state, and the next call in the
other direction returns the same boolean and surfaces the same chunk as it
would have if the failed call had never been made.  (With empty chunks present
the transparency part fails, see the counterexample.) -/
theorem C10_failed_call_transparency (rc rc' : RopeyCursor) :
    (rc.advance = (false, rc') → rc'.chunk = rc.chunk) ∧
    (rc.backtrack = (false, rc') → rc'.chunk = rc.chunk) ∧
    (rc.Inv → (∀ c ∈ rc.iter.chunks, c.isEmpty = false) →
      (rc.advance = (false, rc') →
        rc'.advance = (false, rc') ∧
        (rc'.backtrack).1 = (rc.backtrack).1 ∧
        ((rc'.backtrack).2).chunk = ((rc.backtrack).2).chunk) ∧
      (rc.backtrack = (false, rc') →
        rc'.backtrack = (false, rc') ∧
        (rc'.advance).1 = (rc.advance).1 ∧
        ((rc'.advance).2).chunk = ((rc.advance).2).chunk)) := by
  refine ⟨fun h => ropeAdvanceFail_chunk h, fun h => ropeBacktrackFail_chunk h, ?_⟩
  intro hinv hne
  obtain ⟨⟨cs, p⟩, cur, m⟩ := rc
  obtain ⟨h1, h2, h3⟩ := hinv
  dsimp only at h1 h2 h3 hne
  constructor
  · intro h
    cases m with
    | ChunkEnd =>
      have hple : cs.length ≤ p := by
        by_contra hnot
        have hlt := Nat.lt_of_not_le hnot
        rw [ropeAdvance_end, seekFwd_nonempty hne hlt] at h
        exact absurd (congrArg Prod.fst h) (by simp)
      have hadv : RopeyCursor.advance ⟨⟨cs, p⟩, cur, Pos.ChunkEnd⟩
          = (false, ⟨⟨cs, p⟩, cur, Pos.ChunkEnd⟩) := by
        rw [ropeAdvance_end, seekFwd_exhausted hple]
      have hrc' : rc' = ⟨⟨cs, p⟩, cur, Pos.ChunkEnd⟩ := by
        rw [hadv] at h
        exact ((Prod.ext_iff.mp h).2).symm
      subst hrc'
      exact ⟨hadv, rfl, rfl⟩
    | ChunkStart =>
      rcases h3 rfl with hnil | hlt
      · have hp0 : p = 0 := by rw [hnil] at h1; simpa using h1
        subst hp0
        subst hnil
        have hred : RopeyCursor.advance ⟨⟨([] : List String), 0⟩, cur, Pos.ChunkStart⟩
            = (false, ⟨⟨[], 0⟩, cur, Pos.ChunkEnd⟩) := rfl
        have hrc' : rc' = ⟨⟨[], 0⟩, cur, Pos.ChunkEnd⟩ := by
          rw [hred] at h
          exact ((Prod.ext_iff.mp h).2).symm
        subst hrc'
        exact ⟨rfl, rfl, rfl⟩
      · have hstep : RopeyCursor.advance ⟨⟨cs, p⟩, cur, Pos.ChunkStart⟩
            = RopeyCursor.advance ⟨⟨cs, p + 1⟩, cur, Pos.ChunkEnd⟩ := by
          rw [ropeAdvance_start, chunksNext_lt hlt]
        rw [hstep] at h
        have hple : cs.length ≤ p + 1 := by
          by_contra hnot
          have hlt2 := Nat.lt_of_not_le hnot
          rw [ropeAdvance_end, seekFwd_nonempty hne hlt2] at h
          exact absurd (congrArg Prod.fst h) (by simp)
        have hadv : RopeyCursor.advance ⟨⟨cs, p + 1⟩, cur, Pos.ChunkEnd⟩
            = (false, ⟨⟨cs, p + 1⟩, cur, Pos.ChunkEnd⟩) := by
          rw [ropeAdvance_end, seekFwd_exhausted hple]
        have hrc' : rc' = ⟨⟨cs, p + 1⟩, cur, Pos.ChunkEnd⟩ := by
          rw [hadv] at h
          exact ((Prod.ext_iff.mp h).2).symm
        subst hrc'
        have hbt : RopeyCursor.backtrack ⟨⟨cs, p + 1⟩, cur, Pos.ChunkEnd⟩
            = RopeyCursor.backtrack ⟨⟨cs, p⟩, cur, Pos.ChunkStart⟩ := rfl
        exact ⟨hadv, by rw [hbt], by rw [hbt]⟩
  · intro h
    cases m with
    | ChunkStart =>
      rcases h3 rfl with hnil | hlt
      · have hp0 : p = 0 := by rw [hnil] at h1; simpa using h1
        subst hp0
        subst hnil
        have hrc' : rc' = ⟨⟨[], 0⟩, cur, Pos.ChunkStart⟩ := by
          rw [ropeBacktrackStuck] at h
          exact ((Prod.ext_iff.mp h).2).symm
        subst hrc'
        exact ⟨rfl, rfl, rfl⟩
      · cases p with
        | zero =>
          have hrc' : rc' = ⟨⟨cs, 0⟩, cur, Pos.ChunkStart⟩ := by
            rw [ropeBacktrackStuck] at h
            exact ((Prod.ext_iff.mp h).2).symm
          subst hrc'
          exact ⟨ropeBacktrackStuck cs cur, rfl, rfl⟩
        | succ q =>
          exfalso
          have hqlt : q < cs.length := Nat.lt_of_succ_lt hlt
          rw [ropeBacktrack_start, seekBwd_nonempty hne hqlt] at h
          exact absurd (congrArg Prod.fst h) (by simp)
    | ChunkEnd =>
      rcases h2 rfl with hnil | h1p
      · have hp0 : p = 0 := by rw [hnil] at h1; simpa using h1
        subst hp0
        subst hnil
        have hred : RopeyCursor.backtrack ⟨⟨([] : List String), 0⟩, cur, Pos.ChunkEnd⟩
            = (false, ⟨⟨[], 0⟩, cur, Pos.ChunkStart⟩) := rfl
        have hrc' : rc' = ⟨⟨[], 0⟩, cur, Pos.ChunkStart⟩ := by
          rw [hred] at h
          exact ((Prod.ext_iff.mp h).2).symm
        subst hrc'
        exact ⟨rfl, rfl, rfl⟩
      · cases p with
        | zero => exact absurd h1p (by simp)
        | succ q =>
          have hstep : RopeyCursor.backtrack ⟨⟨cs, q + 1⟩, cur, Pos.ChunkEnd⟩
              = RopeyCursor.backtrack ⟨⟨cs, q⟩, cur, Pos.ChunkStart⟩ := rfl
          rw [hstep] at h
          cases q with
          | succ q2 =>
            exfalso
            have hq2 : q2 < cs.length := by omega
            rw [ropeBacktrack_start, seekBwd_nonempty hne hq2] at h
            exact absurd (congrArg Prod.fst h) (by simp)
          | zero =>
            have hrc' : rc' = ⟨⟨cs, 0⟩, cur, Pos.ChunkStart⟩ := by
              rw [ropeBacktrackStuck] at h
              exact ((Prod.ext_iff.mp h).2).symm
            subst hrc'
            have hlen : 0 < cs.length := h1
            have hadv : RopeyCursor.advance ⟨⟨cs, 0⟩, cur, Pos.ChunkStart⟩
                = RopeyCursor.advance ⟨⟨cs, 1⟩, cur, Pos.ChunkEnd⟩ := by
              rw [ropeAdvance_start, chunksNext_lt hlen]
            exact ⟨ropeBacktrackStuck cs cur, by rw [hadv], by rw [hadv]⟩

/-- C10 witness: the amended transparency applied to a concrete exhausted
cursor over `["a"]`. -/
theorem C10_failed_call_transparency_witness :
    RopeyCursor.advance ⟨⟨["a"], 1⟩, [97], Pos.ChunkEnd⟩
        = (false, ⟨⟨["a"], 1⟩, [97], Pos.ChunkEnd⟩) ∧
    (RopeyCursor.backtrack ⟨⟨["a"], 1⟩, [97], Pos.ChunkEnd⟩).1
        = (RopeyCursor.backtrack ⟨⟨["a"], 1⟩, [97], Pos.ChunkEnd⟩).1 ∧
    ((RopeyCursor.backtrack ⟨⟨["a"], 1⟩, [97], Pos.ChunkEnd⟩).2).chunk
        = ((RopeyCursor.backtrack ⟨⟨["a"], 1⟩, [97], Pos.ChunkEnd⟩).2).chunk :=
  ((C10_failed_call_transparency ⟨⟨["a"], 1⟩, [97], Pos.ChunkEnd⟩
      ⟨⟨["a"], 1⟩, [97], Pos.ChunkEnd⟩).2.2
    ⟨by decide, fun _ => Or.inr (by decide), fun hc => absurd hc (by decide)⟩
    (by decide)).1 rfl

end RegexCursor
